import Mathlib

/-!
Verification of the veya floating-window frontend (TypeScript sources).

Texts are modelled as `List Char` (JavaScript strings with `.length`,
concatenation and `slice`), numbers carried by DOM events as `ℚ`, and the
Zustand store as an explicit record with one Lean function per store action.
Each definition is a direct translation of the corresponding TypeScript
function; the file ends with one theorem per examined claim.
-/

namespace Veya

/-! ### ProvenanceMerger (src/unnamed/part_007: mergeSegments) -/

/-- A half-open provenance range `{start, end}` (the source's `end` field is
spelled `stop` because `end` is a Lean keyword). -/
structure AiInferredRange where
  start : Nat
  stop : Nat
  deriving DecidableEq, Repr

/-- One input segment of `mergeSegments`: `{text, isAiInferred}`. -/
structure Segment where
  text : List Char
  isAiInferred : Bool
  deriving DecidableEq, Repr

/-- Output of `mergeSegments` (mirrors the `RecognitionResult` interface). -/
structure RecognitionResult where
  mergedText : List Char
  aiInferredRanges : List AiInferredRange
  ocrRanges : List AiInferredRange
  deriving DecidableEq, Repr

/-- The loop body of `mergeSegments`, with the running `offset` made explicit:
for each segment record `[offset, offset+len)` under its tag when the text is
non-empty, append the text, advance the offset. -/
def mergeSegmentsFrom (offset : Nat) : List Segment → RecognitionResult
  | [] => { mergedText := [], aiInferredRanges := [], ocrRanges := [] }
  | seg :: rest =>
    let start := offset
    let stop := offset + seg.text.length
    let r := mergeSegmentsFrom stop rest
    if seg.text.length > 0 then
      if seg.isAiInferred then
        { mergedText := seg.text ++ r.mergedText,
          aiInferredRanges := ⟨start, stop⟩ :: r.aiInferredRanges,
          ocrRanges := r.ocrRanges }
      else
        { mergedText := seg.text ++ r.mergedText,
          aiInferredRanges := r.aiInferredRanges,
          ocrRanges := ⟨start, stop⟩ :: r.ocrRanges }
    else
      { mergedText := seg.text ++ r.mergedText,
        aiInferredRanges := r.aiInferredRanges,
        ocrRanges := r.ocrRanges }

/-- Function `mergeSegments` from src/unnamed/part_007 lines 46-69. -/
def mergeSegments (segments : List Segment) : RecognitionResult :=
  mergeSegmentsFrom 0 segments

/-- Function `rangesOverlap` from src/unnamed/part_007 lines 72-74. -/
def rangesOverlap (a b : AiInferredRange) : Bool :=
  decide (a.start < b.stop) && decide (b.start < a.stop)

/-- JavaScript `mergedText.slice(r.start, r.end)` for an in-bounds range. -/
def sliceRange (t : List Char) (r : AiInferredRange) : List Char :=
  (t.drop r.start).take (r.stop - r.start)

/-- Specification-side measuring device: the ordered list of ranges produced
by the merge loop, each paired with its `isAiInferred` tag. -/
def taggedRanges (offset : Nat) : List Segment → List (AiInferredRange × Bool)
  | [] => []
  | seg :: rest =>
    if seg.text.length > 0 then
      (⟨offset, offset + seg.text.length⟩, seg.isAiInferred) ::
        taggedRanges (offset + seg.text.length) rest
    else
      taggedRanges (offset + seg.text.length) rest

/-- Total text length of a segment list. -/
def totalLen (segs : List Segment) : Nat :=
  (segs.map (fun s => s.text.length)).sum

/-- Predicate `rangesChain off n l`: the ranges in `l` are consecutive and non-empty,
starting exactly at `off` and ending exactly at `n` — i.e. they tile
`[off, n)` with no gaps and no overlaps. -/
def rangesChain : Nat → Nat → List AiInferredRange → Bool
  | off, n, [] => off == n
  | off, n, r :: rs => (r.start == off) && decide (off < r.stop) && rangesChain r.stop n rs

/-- Predicate `disjointChain off l`: the ranges in `l` are sorted, non-empty, pairwise
disjoint and all start at or after `off` (a chain that may have gaps). -/
def disjointChain : Nat → List AiInferredRange → Bool
  | _, [] => true
  | off, r :: rs => decide (off ≤ r.start) && decide (r.start < r.stop) && disjointChain r.stop rs

/-- Range `r` overlaps none of the ranges in `l` (via the source's `rangesOverlap`). -/
def disjointFromAll (r : AiInferredRange) (l : List AiInferredRange) : Bool :=
  l.all (fun b => !rangesOverlap r b)

/-- All ranges in the list are pairwise non-overlapping. -/
def pairwiseDisjoint : List AiInferredRange → Bool
  | [] => true
  | r :: rs => disjointFromAll r rs && pairwiseDisjoint rs

/-- The list of ranges is strictly sorted by `start`. -/
def sortedByStart : List AiInferredRange → Bool
  | [] => true
  | [_] => true
  | a :: b :: rs => decide (a.start < b.start) && sortedByStart (b :: rs)

/-! ### Zustand store data model (src/unnamed/part_003) -/

/-- Field `StreamContent.source`: `"text_insight" | "vision_capture"`. -/
inductive ContentSource
  | text_insight
  | vision_capture
  deriving DecidableEq, Repr

/-- The six section keys of `StreamContent.sections` (the `structure` key is
spelled `structure_` because `structure` is a Lean keyword). -/
inductive SectionKey
  | original
  | wordByWord
  | structure_
  | translation
  | colloquial
  | simplified
  deriving DecidableEq, Repr

/-- Object `StreamContent.sections`: all six keys optional (`none` = key missing,
matching the TypeScript optional fields). -/
structure StreamSections where
  original : Option (List Char) := none
  wordByWord : Option (List Char) := none
  structure_ : Option (List Char) := none
  translation : Option (List Char) := none
  colloquial : Option (List Char) := none
  simplified : Option (List Char) := none
  deriving DecidableEq, Repr

/-- Spread update `{ ...sections, [key]: value }`. -/
def setSection (s : StreamSections) : SectionKey → List Char → StreamSections
  | SectionKey.original, v => { s with original := some v }
  | SectionKey.wordByWord, v => { s with wordByWord := some v }
  | SectionKey.structure_, v => { s with structure_ := some v }
  | SectionKey.translation, v => { s with translation := some v }
  | SectionKey.colloquial, v => { s with colloquial := some v }
  | SectionKey.simplified, v => { s with simplified := some v }

/-- Reads one section key. -/
def getSection (s : StreamSections) : SectionKey → Option (List Char)
  | SectionKey.original => s.original
  | SectionKey.wordByWord => s.wordByWord
  | SectionKey.structure_ => s.structure_
  | SectionKey.translation => s.translation
  | SectionKey.colloquial => s.colloquial
  | SectionKey.simplified => s.simplified

/-- The whitespace characters exercised by the repository's property tests. -/
def isWhitespaceChar (c : Char) : Bool :=
  c == ' ' || c == '\t' || c == '\n' || c == '\r'

/-- JavaScript `String.prototype.trim`. -/
def trimChars (l : List Char) : List Char :=
  ((l.dropWhile isWhitespaceChar).reverse.dropWhile isWhitespaceChar).reverse

/-- Check `typeof v === "string" && v.trim().length > 0` for an optional field. -/
def nonBlankOpt : Option (List Char) → Bool
  | some v => !(trimChars v).isEmpty
  | none => false

/-- Function `validateSectionsComplete` from src/unnamed/part_007 lines 231-236:
every required key exists and its value is a non-blank string. -/
def validateSectionsComplete (s : StreamSections) : Bool :=
  nonBlankOpt s.original && nonBlankOpt s.wordByWord && nonBlankOpt s.structure_ &&
    nonBlankOpt s.translation && nonBlankOpt s.colloquial && nonBlankOpt s.simplified

/-- Interface `StreamContent` from src/unnamed/part_003. -/
structure StreamContent where
  source : ContentSource
  sections : StreamSections
  aiInferredRanges : Option (List AiInferredRange) := none
  isStreaming : Bool
  deriving DecidableEq, Repr

/-- A `Partial<StreamContent>` patch as passed to `updateContent`. -/
structure ContentPatch where
  source : Option ContentSource := none
  sections : Option StreamSections := none
  aiInferredRanges : Option (List AiInferredRange) := none
  isStreaming : Option Bool := none
  deriving DecidableEq, Repr

/-- Shallow spread `{ ...current, ...patch }` (note: a `sections` patch replaces
the whole sections object). -/
def applyPatch (cur : StreamContent) (p : ContentPatch) : StreamContent :=
  { source := p.source.getD cur.source,
    sections := p.sections.getD cur.sections,
    aiInferredRanges :=
      match p.aiInferredRanges with
      | some r => some r
      | none => cur.aiInferredRanges,
    isStreaming := p.isStreaming.getD cur.isStreaming }

/-- The default object `updateContent` builds when `currentContent` is null:
`{ source: "text_insight", sections: {}, isStreaming: true }`. -/
def defaultContent : StreamContent :=
  { source := ContentSource.text_insight, sections := {},
    aiInferredRanges := none, isStreaming := true }

/-- A window position `{x, y}`. -/
structure Position where
  x : ℚ
  y : ℚ
  deriving DecidableEq, Repr

/-- Interface `AudioPlayerState` from src/unnamed/part_003. -/
structure AudioPlayerState where
  audioPath : List Char
  isPlaying : Bool
  progress : ℚ
  duration : ℚ
  isSaved : Bool
  deriving DecidableEq, Repr

/-- Interface `FloatingWindowState` from src/unnamed/part_003. -/
structure FloatingWindowState where
  visible : Bool
  pinned : Bool
  position : Position
  currentContent : Option StreamContent
  audioState : Option AudioPlayerState
  deriving DecidableEq, Repr

/-- The slice of the Zustand `AppState` the examined claims touch. -/
structure AppStore where
  floatingWindow : FloatingWindowState
  errorMessage : Option (List Char)
  deriving DecidableEq, Repr

/-- Initial store state (src/unnamed/part_003 lines 85-95). -/
def initStore : AppStore :=
  { floatingWindow :=
      { visible := false, pinned := false, position := ⟨0, 0⟩,
        currentContent := none, audioState := none },
    errorMessage := none }

/-- Store action `showWindow`: `visible := true`, position overridden only
when one is supplied. -/
def showWindow (st : AppStore) (pos : Option Position) : AppStore :=
  { st with floatingWindow :=
      { st.floatingWindow with
        visible := true,
        position := pos.getD st.floatingWindow.position } }

/-- Store action `hideWindow`. -/
def hideWindow (st : AppStore) : AppStore :=
  { st with floatingWindow := { st.floatingWindow with visible := false } }

/-- Store action `togglePin`. -/
def togglePin (st : AppStore) : AppStore :=
  { st with floatingWindow :=
      { st.floatingWindow with pinned := !st.floatingWindow.pinned } }

/-- Store action `updateContent`: merge the patch into `currentContent`,
creating the default content object when there is none. -/
def updateContent (st : AppStore) (p : ContentPatch) : AppStore :=
  { st with floatingWindow :=
      { st.floatingWindow with
        currentContent :=
          some (applyPatch (st.floatingWindow.currentContent.getD defaultContent) p) } }

/-- Store action `setStreamingSection`: no-op when there is no current
content, otherwise set one section key. -/
def setStreamingSection (st : AppStore) (k : SectionKey) (v : List Char) : AppStore :=
  match st.floatingWindow.currentContent with
  | none => st
  | some cur =>
    { st with floatingWindow :=
        { st.floatingWindow with
          currentContent := some { cur with sections := setSection cur.sections k v } } }

/-- Store action `clearContent`. -/
def clearContent (st : AppStore) : AppStore :=
  { st with floatingWindow :=
      { st.floatingWindow with currentContent := none, audioState := none } }

/-- Store action `setError`. -/
def setError (st : AppStore) (m : List Char) : AppStore :=
  { st with errorMessage := some m }

/-- Store action `clearError`. -/
def clearError (st : AppStore) : AppStore :=
  { st with errorMessage := none }

/-! ### Error message resolution (src/unnamed/part_005 lines 34-52) -/

/-- Map `errorKeyMap`: backend error identifiers mapped to i18n keys, in source
order (iteration order of `Object.entries`). -/
def errorKeyMap : List (List Char × List Char) :=
  [("InvalidApiKey".toList, "errors.invalidApiKey".toList),
   ("InsufficientBalance".toList, "errors.insufficientBalance".toList),
   ("NetworkTimeout".toList, "errors.networkTimeout".toList),
   ("ModelUnavailable".toList, "errors.modelUnavailable".toList),
   ("OcrFailed".toList, "errors.ocrFailed".toList),
   ("TtsFailed".toList, "errors.ttsFailed".toList),
   ("StorageError".toList, "errors.storageError".toList),
   ("PermissionDenied".toList, "errors.permissionDenied".toList)]

/-- JavaScript `hay.includes(needle)`: `needle` occurs as a contiguous
substring of `hay`. -/
def listIncludes : List Char → List Char → Bool
  | hay, needle =>
    needle.isPrefixOf hay ||
      match hay with
      | [] => false
      | _ :: t => listIncludes t needle

/-- Function `resolveErrorMessage` from src/unnamed/part_005 lines 45-52: a falsy
(absent or empty) payload falls back to the network-timeout message; the
first map entry whose identifier occurs in the payload wins; otherwise the
payload itself is returned. `t` is the i18n lookup. -/
def resolveErrorMessage (content : Option (List Char)) (t : List Char → List Char) : List Char :=
  match content with
  | none => t "errors.networkTimeout".toList
  | some c =>
    if c.isEmpty then t "errors.networkTimeout".toList
    else
      match errorKeyMap.find? (fun kv => listIncludes c kv.1) with
      | some kv => t kv.2
      | none => c

/-! ### FloatingWindow listeners (src/unnamed/part_005) -/

/-- Event type `TextInsightChunk` (per-variant relevant payload fields). -/
inductive TextInsightChunk
  | start (language : Option (List Char))
  | delta (sec : Option SectionKey) (content : Option (List Char))
  | done
  | error (content : Option (List Char))
  deriving DecidableEq, Repr

/-- One step of the text-insight stream listener (lines 117-152), acting on
the store exactly as the corresponding `case` does (the fire-and-forget
`saveQueryRecord` backend call has no store effect and is not modelled). -/
def textInsightStep (t : List Char → List Char) (st : AppStore) : TextInsightChunk → AppStore
  | TextInsightChunk.start _ =>
    showWindow
      (updateContent (clearError (clearContent st))
        { source := some ContentSource.text_insight, isStreaming := some true,
          sections := some {} })
      none
  | TextInsightChunk.delta sec content =>
    match sec, content with
    | some k, some v => if v.isEmpty then st else setStreamingSection st k v
    | _, _ => st
  | TextInsightChunk.done => updateContent st { isStreaming := some false }
  | TextInsightChunk.error content =>
    setError (updateContent st { isStreaming := some false }) (resolveErrorMessage content t)

/-- Folding the text-insight listener over an event sequence. -/
def runTextInsight (t : List Char → List Char) (st : AppStore)
    (events : List TextInsightChunk) : AppStore :=
  events.foldl (textInsightStep t) st

/-- Is the event a `delta`? -/
def isDelta : TextInsightChunk → Bool
  | TextInsightChunk.delta _ _ => true
  | _ => false

/-- The sections object accumulated by the delta events of a run, mirroring
the listener's guard (`payload.section && payload.content`). -/
def accumSections (s : StreamSections) : List TextInsightChunk → StreamSections
  | [] => s
  | TextInsightChunk.delta (some k) (some v) :: rest =>
    if v.isEmpty then accumSections s rest else accumSections (setSection s k v) rest
  | _ :: rest => accumSections s rest

/-- Modelled from the spec: the backend TextInsight pipeline orchestrator is
not under src/ (only its frontend consumer is). Per spec §3 and §4.4, a run
is one `start`, zero or more `delta` events, then `done`, and "the pipeline's
`Done` event may only fire once all six sections have received at least one
non-empty `Delta`" — completeness being the six-section
`validateSectionsComplete` condition of the repository's own property test.
This predicate states that constraint on the delta block of a run. -/
def ValidTextInsightRun (ds : List TextInsightChunk) : Prop :=
  (∀ e ∈ ds, isDelta e = true) ∧
    validateSectionsComplete (accumSections {} ds) = true

/-- Event type `VisionCaptureChunk` (the `is_ai_inferred` field is never read by
the listener and is omitted). -/
inductive VisionCaptureChunk
  | ocr_result (content : Option (List Char))
  | ai_completion (content : Option (List Char))
  | analysis_delta (content : Option (List Char))
  | done
  | error (content : Option (List Char))
  deriving DecidableEq, Repr

/-- The vision-capture listener's closure state: the two local accumulators
plus the store. -/
structure VisionListenerState where
  accumulatedText : List Char
  aiRanges : List AiInferredRange
  store : AppStore
  deriving DecidableEq, Repr

/-- One step of the vision-capture stream listener (lines 155-211). -/
def visionStep (t : List Char → List Char) (s : VisionListenerState) :
    VisionCaptureChunk → VisionListenerState
  | VisionCaptureChunk.ocr_result content =>
    let acc := content.getD []
    { accumulatedText := acc, aiRanges := [],
      store :=
        showWindow
          (updateContent (clearError (clearContent s.store))
            { source := some ContentSource.vision_capture, isStreaming := some true,
              sections := some { original := some acc } })
          none }
  | VisionCaptureChunk.ai_completion content =>
    match content with
    | some v =>
      if v.isEmpty then s
      else
        let start := s.accumulatedText.length
        let acc := s.accumulatedText ++ v
        let ranges := s.aiRanges ++ [⟨start, acc.length⟩]
        { accumulatedText := acc, aiRanges := ranges,
          store :=
            updateContent s.store
              { sections := some { original := some acc },
                aiInferredRanges := some ranges } }
    | none => s
  | VisionCaptureChunk.analysis_delta content =>
    match content with
    | some v =>
      if v.isEmpty then s
      else { s with store := setStreamingSection s.store SectionKey.translation v }
    | none => s
  | VisionCaptureChunk.done =>
    { s with store := updateContent s.store { isStreaming := some false } }
  | VisionCaptureChunk.error content =>
    { s with
      store := setError (updateContent s.store { isStreaming := some false })
        (resolveErrorMessage content t) }

/-- Folding the vision-capture listener over an event sequence. -/
def runVision (t : List Char → List Char) (s : VisionListenerState)
    (events : List VisionCaptureChunk) : VisionListenerState :=
  events.foldl (visionStep t) s

/-- Is the event an `ocr_result`? -/
def isOcrResult : VisionCaptureChunk → Bool
  | VisionCaptureChunk.ocr_result _ => true
  | _ => false

/-- Is the event an `ai_completion`? -/
def isAiCompletion : VisionCaptureChunk → Bool
  | VisionCaptureChunk.ai_completion _ => true
  | _ => false

/-- The AI fragments a run appends: the non-empty contents of its
`ai_completion` events, in order. -/
def aiFragments : List VisionCaptureChunk → List (List Char)
  | [] => []
  | VisionCaptureChunk.ai_completion (some v) :: rest =>
    if v.isEmpty then aiFragments rest else v :: aiFragments rest
  | _ :: rest => aiFragments rest

/-- The ranges the listener records for fragments appended starting at
offset `off`. -/
def fragRanges (off : Nat) : List (List Char) → List AiInferredRange
  | [] => []
  | f :: fs => ⟨off, off + f.length⟩ :: fragRanges (off + f.length) fs

/-- Handler `handleBlur` (src/unnamed/part_005 lines 95-104): auto-hide unless
pinned. -/
def handleBlur (st : AppStore) : AppStore :=
  if st.floatingWindow.pinned then st else hideWindow st

/-! ### Visibility state machine (src/src/tests/property_floating_window_state.test.ts) -/

/-- The three visibility actions exercised by the property tests. -/
inductive FWAction
  | show
  | blur
  | togglePin
  deriving DecidableEq, Repr

/-- Apply one action to the store (`show` → `showWindow()`, `blur` → the
window's blur handler, `togglePin` → `togglePin()`). -/
def applyAction (st : AppStore) : FWAction → AppStore
  | FWAction.show => showWindow st none
  | FWAction.blur => handleBlur st
  | FWAction.togglePin => togglePin st

/-- Apply a sequence of actions to the store. -/
def runActions (st : AppStore) (acts : List FWAction) : AppStore :=
  acts.foldl applyAction st

/-- The pure reference machine `FloatingWindowVM` of the property test. -/
structure FloatingWindowVM where
  visible : Bool
  pinned : Bool
  deriving DecidableEq, Repr

/-- Test file `showWindow` (pure machine). -/
def vmShowWindow (s : FloatingWindowVM) : FloatingWindowVM :=
  { s with visible := true }

/-- Test file `hideWindow` (pure machine). -/
def vmHideWindow (s : FloatingWindowVM) : FloatingWindowVM :=
  { s with visible := false }

/-- Test file `togglePin` (pure machine). -/
def vmTogglePin (s : FloatingWindowVM) : FloatingWindowVM :=
  { s with pinned := !s.pinned }

/-- Test file `onBlur` (pure machine): hide only when not pinned. -/
def vmOnBlur (s : FloatingWindowVM) : FloatingWindowVM :=
  if !s.pinned then vmHideWindow s else s

/-- Apply one action to the pure machine. -/
def vmApply (s : FloatingWindowVM) : FWAction → FloatingWindowVM
  | FWAction.show => vmShowWindow s
  | FWAction.blur => vmOnBlur s
  | FWAction.togglePin => vmTogglePin s

/-- Apply a sequence of actions to the pure machine. -/
def vmRun (s : FloatingWindowVM) (acts : List FWAction) : FloatingWindowVM :=
  acts.foldl vmApply s

/-- Project the store onto the pure machine's `(visible, pinned)` pair. -/
def projVM (st : AppStore) : FloatingWindowVM :=
  { visible := st.floatingWindow.visible, pinned := st.floatingWindow.pinned }

/-! ### CaptureOverlay (src/src/CaptureOverlay.tsx) -/

/-- Interface `SelectionRect` from CaptureOverlay.tsx. -/
structure SelectionRect where
  startX : ℚ
  startY : ℚ
  endX : ℚ
  endY : ℚ
  deriving DecidableEq, Repr

/-- The region object passed to `process_capture`. -/
structure CaptureRegion where
  x : ℚ
  y : ℚ
  width : ℚ
  height : ℚ
  deriving DecidableEq, Repr

/-- Handler `handleMouseUp` (CaptureOverlay.tsx lines 106-138) as a pure function of
the component state and the device pixel ratio. Result: the new `selection`
state and the region of the single `process_capture` call, `none` when no
call is made. -/
def handleMouseUp (isDragging : Bool) (selection : Option SelectionRect)
    (devicePixelRatio : ℚ) : Option SelectionRect × Option CaptureRegion :=
  match selection, isDragging with
  | none, _ => (selection, none)
  | some _, false => (selection, none)
  | some sel, true =>
    let x := min sel.startX sel.endX
    let y := min sel.startY sel.endY
    let w := abs (sel.endX - sel.startX)
    let h := abs (sel.endY - sel.startY)
    if w < 10 ∨ h < 10 then (none, none)
    else
      let dpr := if devicePixelRatio = 0 then 1 else devicePixelRatio
      (some sel,
        some { x := x * dpr, y := y * dpr, width := w * dpr, height := h * dpr })

/-! ### AudioPlayer save action (src/src/components/ApiConfigPage.tsx lines 226-234) -/

/-- Handler `AudioPlayer.handleSave` as a function of the current audio state: `ok`
says whether the `save_podcast` backend call would succeed (on failure the
catch block leaves the state unchanged). Result: new audio state, and
whether `save_podcast` was invoked at all. -/
def handleSave (ok : Bool) (audioState : AudioPlayerState) : AudioPlayerState × Bool :=
  if audioState.isSaved then (audioState, false)
  else if ok then ({ audioState with isSaved := true }, true)
  else (audioState, true)

/-! ### SettingsPage retry-count field (src/unnamed/part_006 lines 176-187,
src/unnamed/part_001 lines 285-296) -/

/-- Interface `AppSettings` from src/unnamed/part_003. -/
structure AppSettings where
  aiCompletionEnabled : Bool
  cacheMaxSizeMb : ℚ
  cacheAutoCleanDays : ℚ
  retryCount : ℚ
  shortcutCapture : List Char
  locale : List Char
  deriving DecidableEq, Repr

/-- Constant `defaultSettings` from src/unnamed/part_003. -/
def defaultSettings : AppSettings :=
  { aiCompletionEnabled := true, cacheMaxSizeMb := 500, cacheAutoCleanDays := 30,
    retryCount := 3, shortcutCapture := "CommandOrControl+Shift+S".toList,
    locale := "zh-CN".toList }

/-- JavaScript `Number(value) || fallback`: the argument is the numeric value
of the input string (`none` for NaN); `0` and NaN are falsy. -/
def numberOr (v : Option ℚ) (fallbackValue : ℚ) : ℚ :=
  match v with
  | none => fallbackValue
  | some n => if n = 0 then fallbackValue else n

/-- The retry-count input's onChange handler,
`save({ retryCount: Number(e.target.value) || 3 })`, merged into the
settings record as `save` does (`{ ...settings, ...patch }`). -/
def saveRetryCount (s : AppSettings) (v : Option ℚ) : AppSettings :=
  { s with retryCount := numberOr v 3 }

/-- Invariant of the vision-capture listener after the opening `ocr_result`
event: the accumulated text is the OCR text followed by the appended AI
fragments, the recorded ranges are their positions, and the store's current
content mirrors both. -/
def VisionInv (ocrText : List Char) (frags : List (List Char))
    (s : VisionListenerState) : Prop :=
  s.accumulatedText = ocrText ++ frags.join ∧
  s.aiRanges = fragRanges ocrText.length frags ∧
  ∃ c : StreamContent,
    s.store.floatingWindow.currentContent = some c ∧
    c.source = ContentSource.vision_capture ∧
    c.sections.original = some s.accumulatedText ∧
    c.aiInferredRanges = (if frags.isEmpty then none else some s.aiRanges)

/-- A concrete complete delta block: one non-blank delta per section. -/
def sixSectionDeltas : List TextInsightChunk :=
  [TextInsightChunk.delta (some SectionKey.original) (some "o".toList),
   TextInsightChunk.delta (some SectionKey.wordByWord) (some "w".toList),
   TextInsightChunk.delta (some SectionKey.structure_) (some "s".toList),
   TextInsightChunk.delta (some SectionKey.translation) (some "t".toList),
   TextInsightChunk.delta (some SectionKey.colloquial) (some "c".toList),
   TextInsightChunk.delta (some SectionKey.simplified) (some "p".toList)]

/-! ## Lemmas about the provenance merge -/

theorem totalLen_cons (s : Segment) (rest : List Segment) :
    totalLen (s :: rest) = s.text.length + totalLen rest := by
  simp [totalLen]

theorem mergeSegmentsFrom_mergedText (segs : List Segment) : ∀ off : Nat,
    (mergeSegmentsFrom off segs).mergedText = (segs.map Segment.text).join := by
  induction segs with
  | nil => intro off; rfl
  | cons s rest ih =>
    intro off
    cases hai : s.isAiInferred <;> by_cases h : s.text.length > 0 <;>
      simp [mergeSegmentsFrom, h, hai, ih]

theorem mergeSegmentsFrom_ai (segs : List Segment) : ∀ off : Nat,
    (mergeSegmentsFrom off segs).aiInferredRanges
      = ((taggedRanges off segs).filter (fun p => p.2)).map Prod.fst := by
  induction segs with
  | nil => intro off; rfl
  | cons s rest ih =>
    intro off
    cases hai : s.isAiInferred <;> by_cases h : s.text.length > 0 <;>
      simp [mergeSegmentsFrom, taggedRanges, h, hai, ih, List.filter_cons]

theorem mergeSegmentsFrom_ocr (segs : List Segment) : ∀ off : Nat,
    (mergeSegmentsFrom off segs).ocrRanges
      = ((taggedRanges off segs).filter (fun p => !p.2)).map Prod.fst := by
  induction segs with
  | nil => intro off; rfl
  | cons s rest ih =>
    intro off
    cases hai : s.isAiInferred <;> by_cases h : s.text.length > 0 <;>
      simp [mergeSegmentsFrom, taggedRanges, h, hai, ih, List.filter_cons]

theorem taggedRanges_chain (segs : List Segment) : ∀ off : Nat,
    rangesChain off (off + totalLen segs) ((taggedRanges off segs).map Prod.fst) = true := by
  induction segs with
  | nil => intro off; simp [taggedRanges, rangesChain, totalLen]
  | cons s rest ih =>
    intro off
    by_cases h : s.text.length > 0
    · simp only [taggedRanges, if_pos h, List.map_cons, rangesChain, Bool.and_eq_true,
        beq_iff_eq, decide_eq_true_eq]
      refine ⟨⟨by trivial, by omega⟩, ?_⟩
      have harith : off + s.text.length + totalLen rest = off + totalLen (s :: rest) := by
        rw [totalLen_cons]; omega
      have := ih (off + s.text.length)
      rwa [harith] at this
    · have h0 : s.text.length = 0 := by omega
      simp only [taggedRanges, if_neg h, h0, Nat.add_zero, totalLen_cons]
      simpa [h0] using ih off

theorem mergeSegments_mergedText_length (segs : List Segment) :
    (mergeSegments segs).mergedText.length = totalLen segs := by
  rw [mergeSegments, mergeSegmentsFrom_mergedText, List.length_join]
  simp only [totalLen, List.map_map]
  rfl

theorem rangesChain_disjointChain : ∀ (l : List AiInferredRange) (off n : Nat),
    rangesChain off n l = true → disjointChain off l = true := by
  intro l
  induction l with
  | nil => intro off n _; rfl
  | cons r rs ih =>
    intro off n h
    simp only [rangesChain, Bool.and_eq_true, beq_iff_eq, decide_eq_true_eq] at h
    obtain ⟨⟨h1, h2⟩, h3⟩ := h
    simp only [disjointChain, Bool.and_eq_true, decide_eq_true_eq]
    exact ⟨⟨by omega, by omega⟩, ih r.stop n h3⟩

theorem disjointChain_mono : ∀ (l : List AiInferredRange) (off off' : Nat),
    off' ≤ off → disjointChain off l = true → disjointChain off' l = true := by
  intro l
  induction l with
  | nil => intros; rfl
  | cons r rs _ =>
    intro off off' hle h
    simp only [disjointChain, Bool.and_eq_true, decide_eq_true_eq] at h ⊢
    obtain ⟨⟨h1, h2⟩, h3⟩ := h
    exact ⟨⟨by omega, h2⟩, h3⟩

theorem disjointChain_mem : ∀ (l : List AiInferredRange) (off : Nat),
    disjointChain off l = true → ∀ r ∈ l, off ≤ r.start ∧ r.start < r.stop := by
  intro l
  induction l with
  | nil => intro off _ r hr; cases hr
  | cons a rs ih =>
    intro off h r hr
    simp only [disjointChain, Bool.and_eq_true, decide_eq_true_eq] at h
    obtain ⟨⟨h1, h2⟩, h3⟩ := h
    cases hr with
    | head => exact ⟨h1, h2⟩
    | tail _ hr =>
      have := ih a.stop h3 r hr
      exact ⟨by omega, this.2⟩

theorem disjointChain_filterTagged :
    ∀ (tl : List (AiInferredRange × Bool)) (off : Nat) (p : AiInferredRange × Bool → Bool),
    disjointChain off (tl.map Prod.fst) = true →
      disjointChain off ((tl.filter p).map Prod.fst) = true := by
  intro tl
  induction tl with
  | nil => intros; rfl
  | cons a rest ih =>
    intro off p h
    simp only [List.map_cons, disjointChain, Bool.and_eq_true, decide_eq_true_eq] at h
    obtain ⟨⟨h1, h2⟩, h3⟩ := h
    by_cases hp : p a = true
    · simp only [List.filter_cons, hp, if_pos, List.map_cons, disjointChain,
        Bool.and_eq_true, decide_eq_true_eq]
      exact ⟨⟨h1, h2⟩, ih a.1.stop p h3⟩
    · simp only [List.filter_cons, hp, if_neg, Bool.false_eq_true, not_false_eq_true]
      exact disjointChain_mono _ a.1.stop off (by omega) (ih a.1.stop p h3)

theorem disjointChain_sorted : ∀ (l : List AiInferredRange) (off : Nat),
    disjointChain off l = true → sortedByStart l = true := by
  intro l
  induction l with
  | nil => intros; rfl
  | cons a rs ih =>
    intro off h
    simp only [disjointChain, Bool.and_eq_true, decide_eq_true_eq] at h
    obtain ⟨⟨_, h2⟩, h3⟩ := h
    cases rs with
    | nil => rfl
    | cons b rs' =>
      have hb := disjointChain_mem (b :: rs') a.stop h3 b (List.mem_cons_self _ _)
      simp only [sortedByStart, Bool.and_eq_true, decide_eq_true_eq]
      exact ⟨by omega, ih a.stop h3⟩

theorem disjointChain_pairwise : ∀ (l : List AiInferredRange) (off : Nat),
    disjointChain off l = true → pairwiseDisjoint l = true := by
  intro l
  induction l with
  | nil => intros; rfl
  | cons a rs ih =>
    intro off h
    simp only [disjointChain, Bool.and_eq_true, decide_eq_true_eq] at h
    obtain ⟨⟨_, h2⟩, h3⟩ := h
    simp only [pairwiseDisjoint, Bool.and_eq_true]
    refine ⟨?_, ih a.stop h3⟩
    simp only [disjointFromAll, List.all_eq_true]
    intro b hb
    have hmem := disjointChain_mem rs a.stop h3 b hb
    have hd : decide (b.start < a.stop) = false := decide_eq_false (by omega)
    simp [rangesOverlap, hd]

theorem disjointChain_all_bounds (l : List AiInferredRange) (off : Nat)
    (h : disjointChain off l = true) :
    l.all (fun r => decide (off ≤ r.start) && decide (r.start < r.stop)) = true := by
  simp only [List.all_eq_true, Bool.and_eq_true, decide_eq_true_eq]
  intro r hr
  exact disjointChain_mem l off h r hr

theorem sliceRange_append (pad mid rest : List Char) :
    sliceRange (pad ++ (mid ++ rest)) ⟨pad.length, pad.length + mid.length⟩ = mid := by
  show ((pad ++ (mid ++ rest)).drop pad.length).take (pad.length + mid.length - pad.length) = mid
  rw [show pad.length + mid.length - pad.length = mid.length by omega,
    List.drop_left, List.take_left]

theorem tagged_slice : ∀ (segs : List Segment) (pad : List Char),
    ((((taggedRanges pad.length segs).filter (fun p => p.2)).map Prod.fst).map
        (sliceRange (pad ++ (segs.map Segment.text).join))).join
      = ((segs.filter (fun s => s.isAiInferred)).map Segment.text).join := by
  intro segs
  induction segs with
  | nil => intro pad; rfl
  | cons s rest ih =>
    intro pad
    by_cases h : s.text.length > 0
    · have ihx := ih (pad ++ s.text)
      rw [List.length_append, List.append_assoc] at ihx
      cases hai : s.isAiInferred
      · simp only [taggedRanges, if_pos h, hai, List.map_cons, List.join_cons,
          List.filter_cons]
        simpa [hai] using ihx
      · simp only [taggedRanges, if_pos h, hai, List.map_cons, List.join_cons,
          List.filter_cons]
        simp only [decide_True, if_pos, List.map_cons, List.join_cons]
        rw [sliceRange_append]
        simpa [hai] using congrArg (fun l => s.text ++ l) ihx
    · have htext : s.text = [] := by
        cases hx : s.text with
        | nil => rfl
        | cons a l => rw [hx] at h; simp at h
      cases hai : s.isAiInferred <;>
        simpa [taggedRanges, htext, List.filter_cons, hai] using ih pad

/-- C1: `mergeSegments` concatenates all segment texts; the returned
inferred and verbatim range lists are exactly the two tag-projections of
the ordered range decomposition `taggedRanges`, which tiles
`[0, mergedText.length)` as a gap-free chain of non-empty pairwise
non-overlapping ranges; the inferred list is sorted by `start` and pairwise
non-overlapping; and slicing the merged text at the inferred ranges, in
order, reproduces the concatenation of the inferred input segments. -/
theorem C1_mergeSegments_provenance_tiling (segs : List Segment) :
    (mergeSegments segs).mergedText = (segs.map Segment.text).join ∧
    (mergeSegments segs).aiInferredRanges
      = ((taggedRanges 0 segs).filter (fun p => p.2)).map Prod.fst ∧
    (mergeSegments segs).ocrRanges
      = ((taggedRanges 0 segs).filter (fun p => !p.2)).map Prod.fst ∧
    rangesChain 0 (mergeSegments segs).mergedText.length
      ((taggedRanges 0 segs).map Prod.fst) = true ∧
    ((taggedRanges 0 segs).map Prod.fst).all
      (fun r => decide (0 ≤ r.start) && decide (r.start < r.stop)) = true ∧
    pairwiseDisjoint ((taggedRanges 0 segs).map Prod.fst) = true ∧
    sortedByStart (mergeSegments segs).aiInferredRanges = true ∧
    pairwiseDisjoint (mergeSegments segs).aiInferredRanges = true ∧
    ((mergeSegments segs).aiInferredRanges.map (sliceRange (mergeSegments segs).mergedText)).join
      = ((segs.filter (fun s => s.isAiInferred)).map Segment.text).join := by
  have hchain : rangesChain 0 (totalLen segs) ((taggedRanges 0 segs).map Prod.fst) = true := by
    simpa using taggedRanges_chain segs 0
  have hlen := mergeSegments_mergedText_length segs
  have hdc := rangesChain_disjointChain _ 0 _ hchain
  have hai := mergeSegmentsFrom_ai segs 0
  refine ⟨mergeSegmentsFrom_mergedText segs 0, hai, mergeSegmentsFrom_ocr segs 0,
    ?_, ?_, ?_, ?_, ?_, ?_⟩
  · rw [hlen]; exact hchain
  · exact disjointChain_all_bounds _ 0 hdc
  · exact disjointChain_pairwise _ 0 hdc
  · rw [show (mergeSegments segs).aiInferredRanges
        = ((taggedRanges 0 segs).filter (fun p => p.2)).map Prod.fst from hai]
    exact disjointChain_sorted _ 0 (disjointChain_filterTagged _ 0 _ hdc)
  · rw [show (mergeSegments segs).aiInferredRanges
        = ((taggedRanges 0 segs).filter (fun p => p.2)).map Prod.fst from hai]
    exact disjointChain_pairwise _ 0 (disjointChain_filterTagged _ 0 _ hdc)
  · rw [show (mergeSegments segs).aiInferredRanges
        = ((taggedRanges 0 segs).filter (fun p => p.2)).map Prod.fst from hai,
      mergeSegments, mergeSegmentsFrom_mergedText]
    simpa using tagged_slice segs []

/-! ## Error message resolution (claim C4) -/

/-- C4 counterexample: the claim's "the raw provider payload is never
returned to the UI verbatim" is false. A payload carrying the spec's own
`InvalidCredential` kind matches no entry of the frontend's `errorKeyMap`
(whose identifiers are `InvalidApiKey`, `InsufficientBalance`, ...), so
`resolveErrorMessage` returns the raw provider payload verbatim (the i18n
lookup is a concrete function whose outputs all start with `!`, so the
result is not any localized message). -/
theorem C4_raw_payload_counterexample :
    resolveErrorMessage (some "InvalidCredential: upstream rejected the key".toList)
      (fun k => '!' :: k)
      = "InvalidCredential: upstream rejected the key".toList := by decide

/-- C4 (amended): for each of the eight backend error identifiers the
frontend actually matches (`InvalidApiKey`, `InsufficientBalance`,
`NetworkTimeout`, `ModelUnavailable`, `OcrFailed`, `TtsFailed`,
`StorageError`, `PermissionDenied`), a payload carrying that identifier
resolves to that identifier's dedicated localized message; an absent or
empty payload resolves to the network-timeout message; but a non-empty
payload matching no identifier is returned to the UI verbatim. -/
theorem C4_resolveErrorMessage_amended (t : List Char → List Char) :
    resolveErrorMessage (some "InvalidApiKey".toList) t = t "errors.invalidApiKey".toList ∧
    resolveErrorMessage (some "InsufficientBalance".toList) t
      = t "errors.insufficientBalance".toList ∧
    resolveErrorMessage (some "NetworkTimeout".toList) t = t "errors.networkTimeout".toList ∧
    resolveErrorMessage (some "ModelUnavailable".toList) t = t "errors.modelUnavailable".toList ∧
    resolveErrorMessage (some "OcrFailed".toList) t = t "errors.ocrFailed".toList ∧
    resolveErrorMessage (some "TtsFailed".toList) t = t "errors.ttsFailed".toList ∧
    resolveErrorMessage (some "StorageError".toList) t = t "errors.storageError".toList ∧
    resolveErrorMessage (some "PermissionDenied".toList) t = t "errors.permissionDenied".toList ∧
    resolveErrorMessage none t = t "errors.networkTimeout".toList ∧
    resolveErrorMessage (some []) t = t "errors.networkTimeout".toList ∧
    (∀ c : List Char, c ≠ [] →
      errorKeyMap.all (fun kv => !listIncludes c kv.1) = true →
      resolveErrorMessage (some c) t = c) := by
  refine ⟨rfl, rfl, rfl, rfl, rfl, rfl, rfl, rfl, rfl, rfl, ?_⟩
  intro c hc hnone
  have hfind : errorKeyMap.find? (fun kv => listIncludes c kv.1) = none := by
    rw [List.find?_eq_none]
    intro kv hkv
    have := List.all_eq_true.mp hnone kv hkv
    simpa using this
  simp only [resolveErrorMessage]
  rw [if_neg (by simpa [List.isEmpty_iff] using hc), hfind]

/-- C4 amended witness at a concrete unclassified payload and lookup. -/
theorem C4_resolveErrorMessage_amended_witness :
    resolveErrorMessage (some "unclassified provider failure".toList) (fun k => '!' :: k)
      = "unclassified provider failure".toList :=
  (C4_resolveErrorMessage_amended
      (fun k => '!' :: k)).2.2.2.2.2.2.2.2.2.2
    "unclassified provider failure".toList (by decide) (by decide)

/-! ## Visibility state machine (claims C5, C6, C8) -/

/-- C5: from the initial store state, after any sequence of show, blur and
toggle-pin actions: blur on an unpinned state is exactly `hideWindow`
(visible becomes false), blur on a pinned state changes nothing, and after
making the window visible a blur leaves it visible iff it is pinned at the
moment of blur. -/
theorem C5_blur_visible_iff_pinned (acts : List FWAction) :
    ((runActions initStore acts).floatingWindow.pinned = false →
      handleBlur (runActions initStore acts) = hideWindow (runActions initStore acts) ∧
      (handleBlur (runActions initStore acts)).floatingWindow.visible = false) ∧
    ((runActions initStore acts).floatingWindow.pinned = true →
      handleBlur (runActions initStore acts) = runActions initStore acts) ∧
    ((handleBlur (showWindow (runActions initStore acts) none)).floatingWindow.visible = true ↔
      (runActions initStore acts).floatingWindow.pinned = true) := by
  refine ⟨?_, ?_, ?_⟩
  · intro hp
    constructor
    · simp [handleBlur, hp]
    · simp [handleBlur, hideWindow, hp]
  · intro hp
    simp [handleBlur, hp]
  · cases hp : (runActions initStore acts).floatingWindow.pinned <;>
      simp [handleBlur, showWindow, hideWindow, hp]

/-- C5 witness: after toggling pin once from the initial state, a blur on
the shown window leaves it visible. -/
theorem C5_blur_visible_iff_pinned_witness :
    (handleBlur (showWindow (runActions initStore [FWAction.togglePin]) none)).floatingWindow.visible
      = true :=
  (C5_blur_visible_iff_pinned [FWAction.togglePin]).2.2.mpr (by decide)

/-- C6: `togglePin` negates `pinned` and leaves every other component of the
store — visible, position, current content, audio state, error message —
unchanged. -/
theorem C6_togglePin_only_pinned (st : AppStore) :
    (togglePin st).floatingWindow.pinned = !st.floatingWindow.pinned ∧
    (togglePin st).floatingWindow.visible = st.floatingWindow.visible ∧
    (togglePin st).floatingWindow.position = st.floatingWindow.position ∧
    (togglePin st).floatingWindow.currentContent = st.floatingWindow.currentContent ∧
    (togglePin st).floatingWindow.audioState = st.floatingWindow.audioState ∧
    (togglePin st).errorMessage = st.errorMessage :=
  ⟨rfl, rfl, rfl, rfl, rfl, rfl⟩

theorem projVM_applyAction (st : AppStore) (a : FWAction) :
    projVM (applyAction st a) = vmApply (projVM st) a := by
  cases a
  · rfl
  · show projVM (handleBlur st) = vmOnBlur (projVM st)
    cases hp : st.floatingWindow.pinned <;>
      simp [handleBlur, vmOnBlur, projVM, hideWindow, vmHideWindow, hp]
  · rfl

/-- C8: for every starting store state and every action sequence, the
Zustand store's floating-window transitions produce exactly the
`(visible, pinned)` pair of the pure reference machine of the property
test: the store refines the pure specification machine. -/
theorem C8_store_refines_pure_vm (st : AppStore) (acts : List FWAction) :
    projVM (runActions st acts) = vmRun (projVM st) acts := by
  induction acts generalizing st with
  | nil => rfl
  | cons a rest ih =>
    have h1 : runActions st (a :: rest) = runActions (applyAction st a) rest := rfl
    have h2 : vmRun (projVM st) (a :: rest) = vmRun (vmApply (projVM st) a) rest := rfl
    rw [h1, h2, ih (applyAction st a), projVM_applyAction]

/-! ## AudioPlayer save action (claim C7) -/

/-- C7: the explicit save action is at-most-once: once `isSaved` is true,
invoking save performs no `save_podcast` call and leaves the audio state
unchanged; in particular after one successful save any further save is a
no-op without a backend call, so saving twice equals saving once. -/
theorem C7_save_at_most_once (a : AudioPlayerState) (ok : Bool) :
    (a.isSaved = true → handleSave ok a = (a, false)) ∧
    handleSave ok (handleSave true a).1 = ((handleSave true a).1, false) ∧
    (handleSave true (handleSave true a).1).1 = (handleSave true a).1 := by
  refine ⟨fun h => by simp [handleSave, h], ?_, ?_⟩
  · cases h : a.isSaved <;> simp [handleSave, h]
  · cases h : a.isSaved <;> simp [handleSave, h]

/-- C7 witness: a saved artifact is untouched by a further save, with no
backend call. -/
theorem C7_save_at_most_once_witness :
    handleSave true ⟨"tmp.mp3".toList, false, 0, 0, true⟩
      = (⟨"tmp.mp3".toList, false, 0, 0, true⟩, false) :=
  (C7_save_at_most_once ⟨"tmp.mp3".toList, false, 0, 0, true⟩ true).1 rfl

/-! ## CaptureOverlay mouse-up (claim C9) -/

/-- C9: on a completed drag, a selection rectangle under 10 CSS pixels in
width or height never calls `process_capture` and clears the selection; a
larger selection keeps the selection and produces exactly one
`process_capture` call whose region is the selection's top-left corner and
dimensions, each scaled by the device pixel ratio. -/
theorem C9_mouse_up_threshold (sel : SelectionRect) (dpr : ℚ) :
    (abs (sel.endX - sel.startX) < 10 ∨ abs (sel.endY - sel.startY) < 10 →
      handleMouseUp true (some sel) dpr = (none, none)) ∧
    (10 ≤ abs (sel.endX - sel.startX) → 10 ≤ abs (sel.endY - sel.startY) →
      handleMouseUp true (some sel) dpr =
        (some sel,
          some { x := min sel.startX sel.endX * (if dpr = 0 then 1 else dpr),
                 y := min sel.startY sel.endY * (if dpr = 0 then 1 else dpr),
                 width := abs (sel.endX - sel.startX) * (if dpr = 0 then 1 else dpr),
                 height := abs (sel.endY - sel.startY) * (if dpr = 0 then 1 else dpr) })) := by
  constructor
  · intro h
    simp only [handleMouseUp]
    rw [if_pos h]
  · intro h1 h2
    simp only [handleMouseUp]
    rw [if_neg (by push_neg; exact ⟨h1, h2⟩)]

/-- C9 witness: a 20×15 selection at the origin with device pixel ratio 2
yields one capture call for the 40×30 region at the origin. -/
theorem C9_mouse_up_threshold_witness :
    handleMouseUp true (some ⟨0, 0, 20, 15⟩) 2 =
      (some ⟨0, 0, 20, 15⟩, some { x := 0, y := 0, width := 40, height := 30 }) := by
  have h := (C9_mouse_up_threshold ⟨0, 0, 20, 15⟩ 2).2 (by norm_num) (by norm_num)
  rw [h]
  norm_num

/-! ## Settings retry-count field (claim C10) -/

/-- C10: the saved retry count is `Number(value) || 3`: NaN (`none`) and a
numeric value of 0 are replaced by 3, any non-zero numeric value is kept,
and the saved retry count is never 0. -/
theorem C10_retry_count_fallback (s : AppSettings) (v : Option ℚ) :
    (saveRetryCount s v).retryCount = numberOr v 3 ∧
    (saveRetryCount s v).retryCount ≠ 0 ∧
    (v = none → (saveRetryCount s v).retryCount = 3) ∧
    (v = some 0 → (saveRetryCount s v).retryCount = 3) ∧
    (∀ n : ℚ, n ≠ 0 → v = some n → (saveRetryCount s v).retryCount = n) := by
  refine ⟨rfl, ?_, ?_, ?_, ?_⟩
  · cases v with
    | none => norm_num [saveRetryCount, numberOr]
    | some n =>
      by_cases hn : n = 0 <;> simp [saveRetryCount, numberOr, hn]
  · rintro rfl; simp [saveRetryCount, numberOr]
  · rintro rfl; simp [saveRetryCount, numberOr]
  · rintro n hn rfl; simp [saveRetryCount, numberOr, hn]

/-- C10 witness: entering 0 saves a retry count of 3. -/
theorem C10_retry_count_fallback_witness :
    (saveRetryCount defaultSettings (some 0)).retryCount = 3 :=
  (C10_retry_count_fallback defaultSettings (some 0)).2.2.2.1 rfl

/-! ## TextInsight listener (claim C3) -/

theorem nonBlankOpt_iff (o : Option (List Char)) :
    nonBlankOpt o = true ↔ ∃ v, o = some v ∧ trimChars v ≠ [] := by
  cases o with
  | none => simp [nonBlankOpt]
  | some v => simp [nonBlankOpt, List.isEmpty_iff]

theorem setStreamingSection_some (st : AppStore) (c : StreamContent) (k : SectionKey)
    (v : List Char) (hc : st.floatingWindow.currentContent = some c) :
    setStreamingSection st k v
      = { st with floatingWindow :=
            { st.floatingWindow with
              currentContent := some { c with sections := setSection c.sections k v } } } := by
  simp only [setStreamingSection, hc]

theorem updateContent_done (st : AppStore) (c : StreamContent)
    (hc : st.floatingWindow.currentContent = some c) :
    (updateContent st { isStreaming := some false }).floatingWindow.currentContent
      = some { c with isStreaming := false } := by
  simp [updateContent, hc, applyPatch]

theorem runTextInsight_deltas (t : List Char → List Char) :
    ∀ (ds : List TextInsightChunk), (∀ e ∈ ds, isDelta e = true) →
    ∀ (st : AppStore) (c : StreamContent),
    st.floatingWindow.currentContent = some c →
    (runTextInsight t st ds).floatingWindow.currentContent
      = some { c with sections := accumSections c.sections ds } := by
  intro ds
  induction ds with
  | nil =>
    intro _ st c hc
    simpa [runTextInsight, accumSections] using hc
  | cons e es ih =>
    intro hall st c hc
    have he := hall e (List.mem_cons_self _ _)
    have hes : ∀ x ∈ es, isDelta x = true := fun x hx => hall x (List.mem_cons_of_mem e hx)
    cases e with
    | start lang => simp [isDelta] at he
    | done => simp [isDelta] at he
    | error _ => simp [isDelta] at he
    | delta sec cont =>
      have hrun : runTextInsight t st (TextInsightChunk.delta sec cont :: es)
          = runTextInsight t (textInsightStep t st (TextInsightChunk.delta sec cont)) es := rfl
      rw [hrun]
      cases sec with
      | none =>
        have h1 : textInsightStep t st (TextInsightChunk.delta none cont) = st := by
          cases cont <;> rfl
        have h2 : accumSections c.sections (TextInsightChunk.delta none cont :: es)
            = accumSections c.sections es := by
          cases cont <;> rfl
        rw [h1, h2]
        exact ih hes st c hc
      | some k =>
        cases cont with
        | none =>
          rw [show textInsightStep t st (TextInsightChunk.delta (some k) none) = st from rfl,
            show accumSections c.sections (TextInsightChunk.delta (some k) none :: es)
              = accumSections c.sections es from rfl]
          exact ih hes st c hc
        | some v =>
          by_cases hv : v = []
          · subst hv
            rw [show textInsightStep t st (TextInsightChunk.delta (some k) (some [])) = st
                from rfl,
              show accumSections c.sections (TextInsightChunk.delta (some k) (some []) :: es)
                = accumSections c.sections es from rfl]
            exact ih hes st c hc
          · have hvne : v.isEmpty = false := by simpa [List.isEmpty_iff] using hv
            have h1 : textInsightStep t st (TextInsightChunk.delta (some k) (some v))
                = setStreamingSection st k v := by
              simp [textInsightStep, hvne]
            have h2 : accumSections c.sections (TextInsightChunk.delta (some k) (some v) :: es)
                = accumSections (setSection c.sections k v) es := by
              simp [accumSections, hvne]
            rw [h1, h2, setStreamingSection_some st c k v hc]
            exact ih hes _ { c with sections := setSection c.sections k v } rfl

/-- C3: `validateSectionsComplete` returns true exactly when each of the six
section keys is present with a non-blank value; and for every run the
spec-modelled pipeline admits (one `start`, a delta block after which the
six accumulated sections are complete, then `done`), the listener's final
content is the accumulated six-section result with streaming off and the
completeness check passing — an incomplete section set is never accepted. -/
theorem C3_six_section_completeness :
    (∀ s : StreamSections, validateSectionsComplete s = true ↔
      ((∃ v, s.original = some v ∧ trimChars v ≠ []) ∧
       (∃ v, s.wordByWord = some v ∧ trimChars v ≠ []) ∧
       (∃ v, s.structure_ = some v ∧ trimChars v ≠ []) ∧
       (∃ v, s.translation = some v ∧ trimChars v ≠ []) ∧
       (∃ v, s.colloquial = some v ∧ trimChars v ≠ []) ∧
       (∃ v, s.simplified = some v ∧ trimChars v ≠ []))) ∧
    (∀ (t : List Char → List Char) (lang : Option (List Char))
        (ds : List TextInsightChunk),
      ValidTextInsightRun ds →
      (runTextInsight t initStore
          (TextInsightChunk.start lang :: ds
            ++ [TextInsightChunk.done])).floatingWindow.currentContent
        = some { source := ContentSource.text_insight, sections := accumSections {} ds,
                 aiInferredRanges := none, isStreaming := false } ∧
      validateSectionsComplete (accumSections {} ds) = true) := by
  constructor
  · intro s
    simp only [validateSectionsComplete, Bool.and_eq_true, nonBlankOpt_iff]
    tauto
  · intro t lang ds hvalid
    obtain ⟨hds, hcomplete⟩ := hvalid
    refine ⟨?_, hcomplete⟩
    have h0 : (textInsightStep t initStore
        (TextInsightChunk.start lang)).floatingWindow.currentContent
        = some { source := ContentSource.text_insight, sections := {},
                 aiInferredRanges := none, isStreaming := true } := rfl
    have hmid := runTextInsight_deltas t ds hds
      (textInsightStep t initStore (TextInsightChunk.start lang)) _ h0
    have hsplit : runTextInsight t initStore
        (TextInsightChunk.start lang :: ds ++ [TextInsightChunk.done])
        = textInsightStep t
            (runTextInsight t (textInsightStep t initStore (TextInsightChunk.start lang)) ds)
            TextInsightChunk.done := by
      simp [runTextInsight, List.foldl_append]
    rw [hsplit]
    exact updateContent_done _ _ hmid

/-! ## VisionCapture listener (claim C2) -/

theorem updateContent_ai (st : AppStore) (c : StreamContent) (acc : List Char)
    (ranges : List AiInferredRange) (hc : st.floatingWindow.currentContent = some c) :
    (updateContent st
        { sections := some { original := some acc },
          aiInferredRanges := some ranges }).floatingWindow.currentContent
      = some { source := c.source, sections := { original := some acc },
               aiInferredRanges := some ranges, isStreaming := c.isStreaming } := by
  simp [updateContent, hc, applyPatch]

theorem fragRanges_append : ∀ (fs gs : List (List Char)) (off : Nat),
    fragRanges off (fs ++ gs) = fragRanges off fs ++ fragRanges (off + fs.join.length) gs := by
  intro fs
  induction fs with
  | nil => intro gs off; simp [fragRanges]
  | cons f fs' ih =>
    intro gs off
    simp [fragRanges, ih, List.join_cons, List.length_append, Nat.add_assoc]

theorem fragRanges_slice : ∀ (fs : List (List Char)) (pad : List Char),
    (fragRanges pad.length fs).map (sliceRange (pad ++ fs.join)) = fs := by
  intro fs
  induction fs with
  | nil => intro pad; rfl
  | cons f fs' ih =>
    intro pad
    have ihx := ih (pad ++ f)
    rw [List.length_append, List.append_assoc] at ihx
    simp only [fragRanges, List.map_cons, List.join_cons]
    rw [sliceRange_append, ihx]

theorem fragRanges_disjointChain : ∀ (fs : List (List Char)) (off : Nat),
    (∀ f ∈ fs, f ≠ []) → disjointChain off (fragRanges off fs) = true := by
  intro fs
  induction fs with
  | nil => intro off _; rfl
  | cons f fs' ih =>
    intro off hall
    have hf : f ≠ [] := hall f (List.mem_cons_self _ _)
    have hlen : 0 < f.length := List.length_pos.mpr hf
    simp only [fragRanges, disjointChain, Bool.and_eq_true, decide_eq_true_eq]
    exact ⟨⟨Nat.le_refl off, by omega⟩,
      ih (off + f.length) (fun x hx => hall x (List.mem_cons_of_mem f hx))⟩

theorem mem_aiFragments : ∀ (rest : List VisionCaptureChunk) (v : List Char),
    v ∈ aiFragments rest ↔
      (VisionCaptureChunk.ai_completion (some v) ∈ rest ∧ v ≠ []) := by
  intro rest
  induction rest with
  | nil => intro v; simp [aiFragments]
  | cons e es ih =>
    intro v
    cases e with
    | ocr_result c => simp [aiFragments, ih]
    | done => simp [aiFragments, ih]
    | error c => simp [aiFragments, ih]
    | analysis_delta c => simp [aiFragments, ih]
    | ai_completion c =>
      cases c with
      | none => simp [aiFragments, ih]
      | some w =>
        by_cases hw : w = []
        · subst hw
          rw [show aiFragments (VisionCaptureChunk.ai_completion (some []) :: es)
              = aiFragments es from rfl, List.mem_cons]
          constructor
          · intro hm
            obtain ⟨hm', hn⟩ := (ih v).mp hm
            exact ⟨Or.inr hm', hn⟩
          · rintro ⟨hor, hn⟩
            cases hor with
            | inl heq =>
              exfalso
              apply hn
              have := heq
              simp only [VisionCaptureChunk.ai_completion.injEq, Option.some.injEq] at this
              exact this
            | inr hm => exact (ih v).mpr ⟨hm, hn⟩
        · have hwne : w.isEmpty = false := by simpa [List.isEmpty_iff] using hw
          rw [show aiFragments (VisionCaptureChunk.ai_completion (some w) :: es)
              = w :: aiFragments es from by simp [aiFragments, hwne],
            List.mem_cons, List.mem_cons]
          constructor
          · rintro (rfl | hm)
            · exact ⟨Or.inl rfl, hw⟩
            · obtain ⟨hm', hn⟩ := (ih v).mp hm
              exact ⟨Or.inr hm', hn⟩
          · rintro ⟨hor, hn⟩
            cases hor with
            | inl heq =>
              left
              simp only [VisionCaptureChunk.ai_completion.injEq, Option.some.injEq] at heq
              exact heq
            | inr hm => exact Or.inr ((ih v).mpr ⟨hm, hn⟩)

theorem aiFragments_eq_nil_of_no_ai : ∀ (rest : List VisionCaptureChunk),
    (∀ e ∈ rest, isAiCompletion e = false) → aiFragments rest = [] := by
  intro rest
  induction rest with
  | nil => intro _; rfl
  | cons e es ih =>
    intro hall
    have he := hall e (List.mem_cons_self _ _)
    have hes : ∀ x ∈ es, isAiCompletion x = false :=
      fun x hx => hall x (List.mem_cons_of_mem e hx)
    cases e with
    | ai_completion c => simp [isAiCompletion] at he
    | ocr_result c => exact ih hes
    | analysis_delta c => exact ih hes
    | done => exact ih hes
    | error c => exact ih hes

theorem visionStep_ocr (t : List Char → List Char) (s₀ : VisionListenerState)
    (c₀ : Option (List Char)) :
    VisionInv (c₀.getD []) [] (visionStep t s₀ (VisionCaptureChunk.ocr_result c₀)) := by
  refine ⟨by simp [visionStep], rfl, ?_⟩
  exact ⟨{ source := ContentSource.vision_capture,
           sections := { original := some (c₀.getD []) },
           aiInferredRanges := none, isStreaming := true }, rfl, rfl, rfl, rfl⟩

theorem runVision_inv (t : List Char → List Char) :
    ∀ (rest : List VisionCaptureChunk), (∀ e ∈ rest, isOcrResult e = false) →
    ∀ (ocrText : List Char) (frags : List (List Char)) (s : VisionListenerState),
    VisionInv ocrText frags s →
    VisionInv ocrText (frags ++ aiFragments rest) (runVision t s rest) := by
  intro rest
  induction rest with
  | nil =>
    intro _ ocrText frags s h
    simpa [runVision, aiFragments] using h
  | cons e es ih =>
    intro hall ocrText frags s h
    have he : isOcrResult e = false := hall e (List.mem_cons_self _ _)
    have hes : ∀ x ∈ es, isOcrResult x = false :=
      fun x hx => hall x (List.mem_cons_of_mem e hx)
    have hrun : runVision t s (e :: es) = runVision t (visionStep t s e) es := rfl
    rw [hrun]
    obtain ⟨h1, h2, cc, hc, hsrc, horig, hranges⟩ := h
    cases e with
    | ocr_result c₀ => simp [isOcrResult] at he
    | done =>
      have hstep : VisionInv ocrText frags (visionStep t s VisionCaptureChunk.done) :=
        ⟨h1, h2, { cc with isStreaming := false },
          updateContent_done s.store cc hc, hsrc, horig, hranges⟩
      exact ih hes ocrText frags _ hstep
    | error c₀ =>
      have hstep : VisionInv ocrText frags
          (visionStep t s (VisionCaptureChunk.error c₀)) :=
        ⟨h1, h2, { cc with isStreaming := false },
          updateContent_done s.store cc hc, hsrc, horig, hranges⟩
      exact ih hes ocrText frags _ hstep
    | analysis_delta c₀ =>
      cases c₀ with
      | none => exact ih hes ocrText frags s ⟨h1, h2, cc, hc, hsrc, horig, hranges⟩
      | some v =>
        by_cases hv : v = []
        · subst hv
          exact ih hes ocrText frags s ⟨h1, h2, cc, hc, hsrc, horig, hranges⟩
        · have hvne : v.isEmpty = false := by simpa [List.isEmpty_iff] using hv
          have hstepeq : visionStep t s (VisionCaptureChunk.analysis_delta (some v))
              = { s with store := setStreamingSection s.store SectionKey.translation v } := by
            simp [visionStep, hvne]
          have hstep : VisionInv ocrText frags
              { s with store := setStreamingSection s.store SectionKey.translation v } := by
            refine ⟨h1, h2,
              { cc with sections := setSection cc.sections SectionKey.translation v },
              ?_, hsrc, ?_, hranges⟩
            · rw [setStreamingSection_some s.store cc SectionKey.translation v hc]
            · simpa [setSection] using horig
          rw [hstepeq]
          exact ih hes ocrText frags _ hstep
    | ai_completion c₀ =>
      cases c₀ with
      | none => exact ih hes ocrText frags s ⟨h1, h2, cc, hc, hsrc, horig, hranges⟩
      | some v =>
        by_cases hv : v = []
        · subst hv
          exact ih hes ocrText frags s ⟨h1, h2, cc, hc, hsrc, horig, hranges⟩
        · have hvne : v.isEmpty = false := by simpa [List.isEmpty_iff] using hv
          have hstepeq : visionStep t s (VisionCaptureChunk.ai_completion (some v))
              = { accumulatedText := s.accumulatedText ++ v,
                  aiRanges := s.aiRanges
                    ++ [⟨s.accumulatedText.length, (s.accumulatedText ++ v).length⟩],
                  store := updateContent s.store
                    { sections := some { original := some (s.accumulatedText ++ v) },
                      aiInferredRanges := some (s.aiRanges
                        ++ [⟨s.accumulatedText.length, (s.accumulatedText ++ v).length⟩]) } } := by
            simp [visionStep, hvne]
          have hfr : aiFragments (VisionCaptureChunk.ai_completion (some v) :: es)
              = v :: aiFragments es := by
            simp [aiFragments, hvne]
          have hstep : VisionInv ocrText (frags ++ [v])
              { accumulatedText := s.accumulatedText ++ v,
                aiRanges := s.aiRanges
                  ++ [⟨s.accumulatedText.length, (s.accumulatedText ++ v).length⟩],
                store := updateContent s.store
                  { sections := some { original := some (s.accumulatedText ++ v) },
                    aiInferredRanges := some (s.aiRanges
                      ++ [⟨s.accumulatedText.length, (s.accumulatedText ++ v).length⟩]) } } := by
            refine ⟨?_, ?_, ?_⟩
            · show s.accumulatedText ++ v = ocrText ++ (frags ++ [v]).join
              rw [h1]
              simp [List.join_append, List.append_assoc]
            · show s.aiRanges ++ [⟨s.accumulatedText.length, (s.accumulatedText ++ v).length⟩]
                = fragRanges ocrText.length (frags ++ [v])
              rw [h1, h2, fragRanges_append]
              congr 1
              simp [fragRanges, List.length_append]
              omega
            · refine
                ⟨{ source := cc.source,
                   sections := { original := some (s.accumulatedText ++ v) },
                   aiInferredRanges := some (s.aiRanges
                     ++ [⟨s.accumulatedText.length, (s.accumulatedText ++ v).length⟩]),
                   isStreaming := cc.isStreaming },
                 updateContent_ai s.store cc _ _ hc, hsrc, rfl, ?_⟩
              have hne : (frags ++ [v]).isEmpty = false := by cases frags <;> rfl
              rw [hne]
              rfl
          rw [hstepeq]
          have := ih hes ocrText (frags ++ [v]) _ hstep
          rw [hfr, List.append_cons]
          exact this

/-- C2: for a vision-capture run (an `ocr_result` event followed by
non-`ocr_result` events): the accumulated text is the OCR text followed by
the appended non-empty AI fragments; the recorded ranges are exactly those
fragments' positions and the store's content mirrors both; with no
`ai_completion` event the final text is the raw OCR text and the range set
is empty; with at least one non-empty AI fragment the range set is
non-empty; slicing the final text at the ranges returns exactly the AI
fragments, one range per fragment; and every range is disjoint from the
OCR prefix and from every other range. -/
theorem C2_vision_capture_branches (t : List Char → List Char) (s₀ : VisionListenerState)
    (c₀ : Option (List Char)) (rest : List VisionCaptureChunk)
    (hrest : ∀ e ∈ rest, isOcrResult e = false)
    (fin : VisionListenerState)
    (hfin : fin = runVision t s₀ (VisionCaptureChunk.ocr_result c₀ :: rest)) :
    fin.accumulatedText = c₀.getD [] ++ (aiFragments rest).join ∧
    fin.aiRanges = fragRanges (c₀.getD []).length (aiFragments rest) ∧
    fin.store.floatingWindow.currentContent.map (fun c => c.sections.original)
      = some (some fin.accumulatedText) ∧
    fin.store.floatingWindow.currentContent.map (fun c => c.aiInferredRanges.getD [])
      = some fin.aiRanges ∧
    ((∀ e ∈ rest, isAiCompletion e = false) →
      fin.accumulatedText = c₀.getD [] ∧ fin.aiRanges = []) ∧
    (aiFragments rest ≠ [] → fin.aiRanges ≠ []) ∧
    ((∃ v, VisionCaptureChunk.ai_completion (some v) ∈ rest ∧ v ≠ [])
      ↔ aiFragments rest ≠ []) ∧
    fin.aiRanges.map (sliceRange fin.accumulatedText) = aiFragments rest ∧
    fin.aiRanges.all
      (fun r => decide ((c₀.getD []).length ≤ r.start) && decide (r.start < r.stop)) = true ∧
    pairwiseDisjoint fin.aiRanges = true := by
  subst hfin
  have hstep0 : runVision t s₀ (VisionCaptureChunk.ocr_result c₀ :: rest)
      = runVision t (visionStep t s₀ (VisionCaptureChunk.ocr_result c₀)) rest := rfl
  rw [hstep0]
  have hinv := runVision_inv t rest hrest (c₀.getD []) [] _ (visionStep_ocr t s₀ c₀)
  rw [List.nil_append] at hinv
  obtain ⟨h1, h2, cc, hc, hsrc, horig, hranges⟩ := hinv
  have hchain : disjointChain (c₀.getD []).length
      (fragRanges (c₀.getD []).length (aiFragments rest)) = true :=
    fragRanges_disjointChain (aiFragments rest) (c₀.getD []).length
      (fun f hf => ((mem_aiFragments rest f).mp hf).2)
  refine ⟨h1, h2, ?_, ?_, ?_, ?_, ?_, ?_, ?_, ?_⟩
  · rw [hc]
    simp [horig]
  · rw [hc]
    cases hfr : aiFragments rest with
    | nil =>
      rw [hfr] at hranges h2
      simp only [List.isEmpty_nil, if_pos] at hranges
      simp [hranges, h2, fragRanges]
    | cons f fs =>
      rw [hfr] at hranges
      simp only [List.isEmpty_cons, Bool.false_eq_true, if_neg] at hranges
      simp [hranges]
  · intro hnoai
    have hznil : aiFragments rest = [] := aiFragments_eq_nil_of_no_ai rest hnoai
    rw [hznil] at h1 h2
    exact ⟨by simpa using h1, by simpa [fragRanges] using h2⟩
  · intro hne
    rw [h2]
    cases hfr : aiFragments rest with
    | nil => exact absurd hfr hne
    | cons f fs => simp [fragRanges]
  · constructor
    · rintro ⟨v, hmem, hv⟩
      exact List.ne_nil_of_mem ((mem_aiFragments rest v).mpr ⟨hmem, hv⟩)
    · intro hne
      cases hfr : aiFragments rest with
      | nil => exact absurd hfr hne
      | cons f fs =>
        have hfmem : f ∈ aiFragments rest := by rw [hfr]; exact List.mem_cons_self _ _
        obtain ⟨hm, hnn⟩ := (mem_aiFragments rest f).mp hfmem
        exact ⟨f, hm, hnn⟩
  · rw [h1, h2]
    exact fragRanges_slice (aiFragments rest) (c₀.getD [])
  · rw [h2]
    exact disjointChain_all_bounds _ _ hchain
  · rw [h2]
    exact disjointChain_pairwise _ _ hchain

/-- C2 witness: an OCR result "ab" followed by one AI fragment "cd", an
analysis delta and `done` yields merged text "abcd" with the single
inferred range `[2, 4)`. -/
theorem C2_vision_capture_branches_witness :
    (runVision (fun k => k) ⟨[], [], initStore⟩
        (VisionCaptureChunk.ocr_result (some "ab".toList)
          :: [VisionCaptureChunk.ai_completion (some "cd".toList),
              VisionCaptureChunk.analysis_delta (some "t".toList),
              VisionCaptureChunk.done])).accumulatedText
      = "ab".toList
        ++ (aiFragments [VisionCaptureChunk.ai_completion (some "cd".toList),
              VisionCaptureChunk.analysis_delta (some "t".toList),
              VisionCaptureChunk.done]).join :=
  (C2_vision_capture_branches (fun k => k) ⟨[], [], initStore⟩ (some "ab".toList)
    [VisionCaptureChunk.ai_completion (some "cd".toList),
     VisionCaptureChunk.analysis_delta (some "t".toList),
     VisionCaptureChunk.done]
    (by decide) _ rfl).1

/-- C3 witness: a run delivering one non-blank delta per section ends with
the complete six-section content and streaming off. -/
theorem C3_six_section_completeness_witness :
    (runTextInsight (fun k => k) initStore
        (TextInsightChunk.start none :: sixSectionDeltas
          ++ [TextInsightChunk.done])).floatingWindow.currentContent
      = some { source := ContentSource.text_insight,
               sections := accumSections {} sixSectionDeltas,
               aiInferredRanges := none, isStreaming := false } ∧
    validateSectionsComplete (accumSections {} sixSectionDeltas) = true :=
  C3_six_section_completeness.2 (fun k => k) none sixSectionDeltas
    ⟨by decide, by decide⟩

end Veya
